import Mathlib

/-!
Verification of the node-tree core of `nodeHandler.py` (Web Access for NVDA).

The Python source is shallowly embedded as follows:

* Python unicode strings are modelled as `Str := List Char`, so that all
  string operations (splitting, substring tests) compute by kernel
  reduction.  `str s` converts a Lean string literal.
* A `NodeField` is a node of the accessibility tree.  The source
  distinguishes control / format / text behaviour by attribute presence
  (duck typing: `hasattr(self, "control")`, `hasattr(self, "format")`,
  `hasattr(self, "text")`); we model this with three `Option` fields of
  `NodeData`.  Every node carries `offset`, `size`, and the list of its
  children (in the source every `NodeField.__init__` sets `self.children`).
* `previousTextNode` is a non-owning back reference in the source; a purely
  inductive tree cannot hold it, so `NodeData.prevText` stores the text of
  the builder's "last text node" at the moment the node was created (the
  only use of the reference in the modelled operations is reading `.text`).
* The expat-driven builder (`_startElementHandler`, `_EndElementHandler`,
  `_CharacterDataHandler`, `parseXML`) is modelled as a step function over
  an explicit stack of open nodes, consuming a list of parser events.
  Exceptions raised by the handlers (unknown tag, character data outside a
  format node, missing `role` attribute) abort the run, exactly as an
  exception raised inside an expat handler propagates out of
  `parser.Parse` and hence out of `parseXML`.
* `NodeManager.update` is modelled as a function from the manager state and
  an environment (the treeInterceptor collaborator: readiness, the two
  extent probes, the snapshot, the caret probe) to an outcome: the new
  state, the returned value or the escaped exception, the scheduler event
  sent, and two instrumentation counters (number of snapshots taken and of
  build attempts) that record, without influencing, the control flow.
-/

/-! ## Python strings -/

/-- Python unicode strings, as plain character lists so that everything
computes. -/
abbrev Str := List Char

/-- Convert a Lean string literal to the model's string type. -/
def str (s : String) : Str := s.toList

/-- Python `sub in s` (substring containment; an empty `sub` is contained in
everything, as in Python). -/
def strContains (s sub : Str) : Bool := decide (sub <:+: s)

/-- Python `s.split(sep)` for a single-character separator: note that
`"".split(" ") == [""]` and separators at the ends produce empty pieces. -/
def pySplit (sep : Char) : Str → List Str
  | [] => [[]]
  | c :: rest =>
    let r := pySplit sep rest
    if c = sep then [] :: r
    else
      match r with
      | [] => [[c]]
      | h :: t => (c :: h) :: t

/-- Python `s.replace("*", "")`: drop every `*` character. -/
def stripStars (s : Str) : Str := s.filter (fun c => c ≠ '*')

/-- Python `key.split("_", 1)`: split at the first occurrence of the
separator; `none` when the separator does not occur (`"_" not in key`). -/
def splitOnce (sep : Char) : Str → Option (Str × Str)
  | [] => none
  | c :: rest =>
    if c = sep then some ([], rest)
    else (splitOnce sep rest).map (fun p => (c :: p.1, p.2))

/-- Python `prop.rsplit("#", 1)[0]`: everything before the last occurrence
of the separator, or the whole string when the separator does not occur. -/
def rsplitDrop (sep : Char) (s : Str) : Str :=
  match splitOnce sep s.reverse with
  | some p => p.2.reverse
  | none => s

/-- Python truthiness of an optional string (`None` and `""` are falsy). -/
def truthy : Option Str → Bool
  | some s => s ≠ []
  | none => false

/-! ## Attribute mappings -/

/-- An attribute mapping, as handed to the element handlers by expat (for
`control` elements: after the external `info._normalizeControlField`, which
we treat as the identity on the already-normalized mapping). -/
abbrev Attrs := List (Str × Str)

/-- Python `attrs.get(key)` (`None` when absent). -/
def attrsGet (a : Attrs) (k : Str) : Option Str :=
  (a.find? (fun e => e.1 == k)).map (fun e => e.2)

/-! ## The node model (`NodeField`) -/

/-- The per-node record fields of `NodeField`.  `control`/`format`/`text`
model the attribute-presence discrimination of the source. -/
structure NodeData where
  control : Option Attrs := none
  format : Option Attrs := none
  text : Option Str := none
  offset : Nat := 0
  size : Nat := 0
  prevText : Option Str := none
deriving Repr, DecidableEq

/-- A node of the tree: its data and its owned children, in document
order. -/
inductive NodeField where
  | mk (data : NodeData) (children : List NodeField)

def NodeField.data : NodeField → NodeData
  | .mk d _ => d

def NodeField.children : NodeField → List NodeField
  | .mk _ cs => cs

/-- `NodeField.__eq__`: comparison against `None` is `False`; otherwise two
nodes are equal exactly when their offsets are equal. -/
def NodeField.pyEq (self : NodeField) (node : Option NodeField) : Bool :=
  match node with
  | none => false
  | some m => self.data.offset == m.data.offset

/-- Python `child in exclude` on a list of nodes: linear scan deciding
membership with `NodeField.__eq__` (identity hits imply offset equality,
so the `is` fast path of the interpreter makes no difference). -/
def memByEq (child : NodeField) (exclude : List NodeField) : Bool :=
  exclude.any (fun x => x.pyEq (some child))

/-- `NodeField.__contains__`: true when `node` equals `self` or one of
`self`'s immediate children (equality being `NodeField.__eq__`). -/
def NodeField.pyContains (self node : NodeField) : Bool :=
  self.pyEq (some node) || self.children.any (fun ch => ch.pyEq (some node))

/-- `NodeField.__len__` (`len(node)` is the node's size; it is also Python's
truthiness of a node, which the offset search relies on). -/
def NodeField.pyLen (self : NodeField) : Nat := self.data.size

/-! ## Attribute accessors of control nodes

In the source these are assigned once in `NodeField.__init__` from the
(immutable) `control` mapping; we compute them on demand, which is
observationally the same.  On nodes without the `control` attribute,
`getattr(self, prop, None)` yields `None` for the properties below that the
constructor only sets on control nodes (`name`, `tag`, `id`, `className`,
`src`); `role` is set to the integer `0` on format nodes and
`controlIdentifier` likewise, which no string-valued criterion can equal, so
they are modelled as absent. -/

def NodeField.role (n : NodeField) : Option Str :=
  n.data.control.bind (fun a => attrsGet a (str "role"))

def NodeField.name (n : NodeField) : Option Str :=
  n.data.control.map (fun a => (attrsGet a (str "name")).getD [])

/-- Fallback chain with Python truthiness: `a or-else b`. -/
def chain2 (a : Option Str) (b : Str) : Str :=
  if truthy a then a.getD [] else b

def NodeField.tag (n : NodeField) : Option Str :=
  n.data.control.map (fun a =>
    chain2 (attrsGet a (str "IAccessible2::attribute_tag"))
      ((attrsGet a (str "IHTMLDOMNode::nodeName")).getD []))

def NodeField.id (n : NodeField) : Option Str :=
  n.data.control.map (fun a =>
    chain2 (attrsGet a (str "IAccessible2::attribute_id"))
      ((attrsGet a (str "HTMLAttrib::id")).getD []))

def NodeField.className (n : NodeField) : Option Str :=
  n.data.control.map (fun a =>
    chain2 (attrsGet a (str "IAccessible2::attribute_class"))
      (chain2 (attrsGet a (str "HTMLAttrib::class"))
        ((attrsGet a (str "HTMLAttrib::className")).getD [])))

def NodeField.src (n : NodeField) : Option Str :=
  n.data.control.map (fun a =>
    chain2 (attrsGet a (str "IAccessible2::attribute_src"))
      ((attrsGet a (str "HTMLAttrib::src")).getD []))

def NodeField.controlIdentifier (n : NodeField) : Option Str :=
  n.data.control.map (fun a => (attrsGet a (str "controlIdentifier_ID")).getD (str "0"))

/-- `getattr(self, prop, None)` for the properties the structured search
reads.  Numeric-valued attributes (`offset`, `size`) are modelled as absent
since no string criterion can match them. -/
def NodeField.getProp (n : NodeField) (prop : Str) : Option Str :=
  if prop = str "role" then n.role
  else if prop = str "name" then n.name
  else if prop = str "tag" then n.tag
  else if prop = str "id" then n.id
  else if prop = str "className" then n.className
  else if prop = str "src" then n.src
  else if prop = str "controlIdentifier" then n.controlIdentifier
  else none

/-! ## Free-text search (`NodeField.searchString`)

The `text` argument is always a list in the model (the source promotes a
bare string to a one-element list on entry).  `exclude` is the optional
exclusion list (the source's `None` is the empty list, which is also falsy
in `if exclude and child in exclude`).  `maxIndex = 0` means "no cap". -/

mutual

def NodeField.searchString (n : NodeField) (text : List Str)
    (exclude : List NodeField) (maxIndex currentIndex : Nat) : List NodeField :=
  match n with
  | .mk d cs =>
    match d.text with
    | some t => if text.any (fun pat => strContains t pat) then [.mk d cs] else []
    | none => NodeField.searchStringList cs text exclude maxIndex currentIndex

def NodeField.searchStringList (cs : List NodeField) (text : List Str)
    (exclude : List NodeField) (maxIndex currentIndex : Nat) : List NodeField :=
  match cs with
  | [] => []
  | c :: rest =>
    if !exclude.isEmpty && memByEq c exclude then
      NodeField.searchStringList rest text exclude maxIndex currentIndex
    else
      let childResult := c.searchString text exclude maxIndex currentIndex
      if maxIndex ≠ 0 then
        let ci := currentIndex + childResult.length
        if ci ≥ maxIndex then childResult
        else childResult ++ NodeField.searchStringList rest text exclude maxIndex ci
      else childResult ++ NodeField.searchStringList rest text exclude maxIndex currentIndex

end

/-! ## Criterion tests (`search_eq`, `search_in`) -/

/-- `NodeField.search_eq` with an already-listed `itemList`: does the
candidate value equal one of the allowed values?  (`None` equals none of
them.) -/
def search_eq (itemList : List Str) (value : Option Str) : Bool :=
  itemList.any (fun item => value == some item)

/-- `NodeField.search_in`: `False` for a `None` or empty candidate value,
otherwise: does some allowed value, with its `*` wildcards stripped, occur
as a substring of the candidate value? -/
def search_in (itemList : List Str) (value : Option Str) : Bool :=
  match value with
  | none => false
  | some v => if v = [] then false else itemList.any (fun item => strContains v (stripStars item))

/-! ## Structured search (`NodeField.searchNode`)

The criteria (`**kwargs`) are an association list from criterion keys
(`test_property[#index]`) to their allowed-value lists (the source promotes
a bare value to a list inside `search_eq`/`search_in`; `in_text` /
`in_prevText` values are likewise modelled as lists, the `prevText` test
reading the first element).  The source mutates `kwargs` with
`del kwargs[key]` while iterating over `kwargs.copy()`; deleting a key that
was already deleted (possible when several `className` tokens match the
same criterion) raises `KeyError`, which escapes the search — modelled by
the `keyError` outcome.  A matched `notEq`/`notIn` criterion returns `[]`
for the whole subtree call (`shortCircuit`). -/

abbrev Criteria := List (Str × List Str)

def kget (cur : Criteria) (k : Str) : Option (List Str) :=
  (cur.find? (fun e => e.1 == k)).map (fun e => e.2)

def khas (cur : Criteria) (k : Str) : Bool := cur.any (fun e => e.1 == k)

def kdel (cur : Criteria) (k : Str) : Criteria := cur.eraseP (fun e => e.1 == k)

/-- Outcome of processing criteria at one node: continue with the
(possibly reduced) criteria and the accumulated `found` flag, return `[]`
for this subtree, or raise `KeyError`. -/
inductive CritStep where
  | proceed (cur : Criteria) (found : Bool)
  | shortCircuit
  | keyError
deriving Repr, DecidableEq

/-- One `test` evaluation against one candidate value (the body of the
inner `for candidateValue in candidateValues` loop).  An unrecognized test
name falls through the `if`/`elif` chain and does nothing. -/
def applyTest (test key : Str) (allowedValues : List Str) (cv : Option Str)
    (cur : Criteria) (found : Bool) : CritStep :=
  if test = str "eq" then
    if search_eq allowedValues cv then
      if khas cur key then .proceed (kdel cur key) found else .keyError
    else .proceed cur false
  else if test = str "in" then
    if search_in allowedValues cv then
      if khas cur key then .proceed (kdel cur key) found else .keyError
    else .proceed cur false
  else if test = str "notEq" then
    if search_eq allowedValues cv then .shortCircuit else .proceed cur found
  else if test = str "notIn" then
    if search_in allowedValues cv then .shortCircuit else .proceed cur found
  else .proceed cur found

/-- Fold `applyTest` over the candidate values of one criterion. -/
def applyTests (test key : Str) (allowedValues : List Str) :
    List (Option Str) → Criteria → Bool → CritStep
  | [], cur, found => .proceed cur found
  | cv :: rest, cur, found =>
    match applyTest test key allowedValues cv cur found with
    | .proceed cur' found' => applyTests test key allowedValues rest cur' found'
    | s => s

/-- The criteria loop of `searchNode` (`for key, allowedValues in
kwargs.copy().items()`): iterate over the entry list as it was on entry,
threading the current (deletion-affected) criteria and the `found` flag.
A key without `_` is logged and ignored; `text`/`prevText` properties are
skipped here and handled after the loop. -/
def processCrits (n : NodeField) : Criteria → Criteria → Bool → CritStep
  | [], cur, found => .proceed cur found
  | (key, allowedValues) :: entries, cur, found =>
    match splitOnce '_' key with
    | none => processCrits n entries cur found
    | some (test, prop0) =>
      let prop := rsplitDrop '#' prop0
      if prop = str "text" ∨ prop = str "prevText" then
        processCrits n entries cur found
      else
        let candidateValue := n.getProp prop
        let candidateValues :=
          if prop = str "className" then (pySplit ' ' (candidateValue.getD [])).map some
          else [candidateValue]
        match applyTests test key allowedValues candidateValues cur found with
        | .proceed cur' found' => processCrits n entries cur' found'
        | s => s

mutual

def NodeField.searchNode (n : NodeField) (exclude : List NodeField)
    (maxIndex currentIndex : Nat) (kwargs : Criteria) :
    Except Unit (List NodeField) :=
  match n with
  | .mk d cs =>
    if d.control.isSome then
      match processCrits (.mk d cs) kwargs kwargs true with
      | .keyError => .error ()
      | .shortCircuit => .ok []
      | .proceed cur found =>
        if found then
          let text := (kget cur (str "in_text")).getD []
          if text ≠ [] then
            .ok (NodeField.searchString (.mk d cs) text exclude maxIndex currentIndex)
          else
            let prevText := match kget cur (str "in_prevText") with
              | some (s :: _) => s
              | _ => []
            if prevText ≠ [] then
              match d.prevText with
              | some pt => if strContains pt prevText then .ok [.mk d cs] else .ok []
              | none => .ok []
            else .ok [.mk d cs]
        else NodeField.searchNodeList cs exclude maxIndex currentIndex cur
    else .ok []

def NodeField.searchNodeList (cs : List NodeField) (exclude : List NodeField)
    (maxIndex currentIndex : Nat) (kwargs : Criteria) :
    Except Unit (List NodeField) :=
  match cs with
  | [] => .ok []
  | c :: rest =>
    if !exclude.isEmpty && memByEq c exclude then
      NodeField.searchNodeList rest exclude maxIndex currentIndex kwargs
    else
      match c.searchNode exclude maxIndex currentIndex kwargs with
      | .error e => .error e
      | .ok childResult =>
        if maxIndex ≠ 0 then
          let ci := currentIndex + childResult.length
          if ci ≥ maxIndex then .ok childResult
          else
            match NodeField.searchNodeList rest exclude maxIndex ci kwargs with
            | .error e => .error e
            | .ok r => .ok (childResult ++ r)
        else
          match NodeField.searchNodeList rest exclude maxIndex currentIndex kwargs with
          | .error e => .error e
          | .ok r => .ok (childResult ++ r)

end

/-! ## Offset search (`NodeField.searchOffset`) and the leaf enumeration -/

mutual

/-- `NodeField.searchOffset`: a text-bearing node answers for itself (and
never descends); otherwise the children are probed left to right and the
first truthy result wins (`if node:` — node truthiness is `len(node) != 0`,
i.e. `size ≠ 0`). -/
def NodeField.searchOffset (n : NodeField) (offset : Nat) : Option NodeField :=
  match n with
  | .mk d cs =>
    if d.text.isSome then
      if d.offset ≤ offset ∧ offset < d.offset + d.size then some (.mk d cs) else none
    else NodeField.searchOffsetList cs offset

def NodeField.searchOffsetList (cs : List NodeField) (offset : Nat) : Option NodeField :=
  match cs with
  | [] => none
  | c :: rest =>
    match c.searchOffset offset with
    | some node => if node.pyLen ≠ 0 then some node else NodeField.searchOffsetList rest offset
    | none => NodeField.searchOffsetList rest offset

end

mutual

/-- The text-bearing leaves of a subtree in document (pre-order,
left-to-right) order — the traversal order of `searchOffset` and
`searchString`. -/
def NodeField.leaves (n : NodeField) : List NodeField :=
  match n with
  | .mk d cs => if d.text.isSome then [.mk d cs] else NodeField.leavesList cs

def NodeField.leavesList (cs : List NodeField) : List NodeField :=
  match cs with
  | [] => []
  | c :: rest => c.leaves ++ NodeField.leavesList rest

end

mutual

/-- The size-aggregation invariant: a text-bearing node's size is the
length of its text; any other node's size is the sum of its immediate
children's sizes; recursively throughout the subtree. -/
def sizeOKb (n : NodeField) : Bool :=
  match n with
  | .mk d cs =>
    (match d.text with
     | some t => d.size == t.length
     | none => d.size == (cs.map (fun c => c.data.size)).sum) && sizeOKbList cs

def sizeOKbList (cs : List NodeField) : Bool :=
  match cs with
  | [] => true
  | c :: rest => sizeOKb c && sizeOKbList rest

end

/-- Membership of an offset in a leaf's half-open interval
`[offset, offset + size)`. -/
def inIval (o : Nat) (l : NodeField) : Bool :=
  decide (l.data.offset ≤ o ∧ o < l.data.offset + l.data.size)

/-- The ordering relation claimed for consecutive text leaves: strictly
increasing offsets and non-overlapping intervals. -/
def leafR (a b : NodeField) : Prop :=
  a.data.offset < b.data.offset ∧ a.data.offset + a.data.size ≤ b.data.offset

/-! ## The streaming tree builder

`NodeManager.parseXML` feeds the snapshot to an expat parser whose three
handlers build the tree.  We model the handler-visible event stream: expat
delivers `startE tag attrs`, `endE tag` and `charData data` events (always
properly nested, with non-empty character data).  The builder state mirrors
the handler-visible mutable state: `currentParentNode` and the chain of its
open ancestors (the stack, innermost first, each holding the children
closed so far — in the source an open child additionally already sits at
the end of its parent's `children` list, which `materializeStack`
reconstructs for partial trees), `fieldOffset`, the last text node
(represented by its text, see the header comment), and the closed toplevel
nodes (`mainNode` is the first of them, being the first node created). -/

inductive BEvent where
  | startE (tag : Str) (attrs : Attrs)
  | endE (tag : Str)
  | charData (data : Str)
deriving Repr, DecidableEq

/-- The exceptions the handlers can raise (all of them propagate out of
`parser.Parse` and hence out of `parseXML` and `update`). -/
inductive ParseErr where
  /-- `_startElementHandler`: `raise ValueError("Unknown tag name: ...")`. -/
  | unknownStartTag
  /-- `_EndElementHandler`: `raise ValueError("unknown tag name: ...")`. -/
  | unknownEndTag
  /-- `_EndElementHandler` with no open node: `self.currentParentNode.parent`
  dereferences `None`. -/
  | noCurrentParent
  /-- `_CharacterDataHandler`: the current parent has no `format` attribute
  (bare `raise`). -/
  | charDataNoFormatParent
  /-- `NodeField.__init__` for a control node: `self.control["role"]` with no
  `role` key raises `KeyError`. -/
  | missingRole
deriving Repr, DecidableEq

/-- An open (still mutable) node: its data so far and its already-closed
children. -/
structure OpenNode where
  data : NodeData
  children : List NodeField

/-- The builder state visible to the handlers. -/
structure BState where
  stack : List OpenNode := []
  finished : List NodeField := []
  fieldOffset : Nat := 0
  lastTextNode : Option Str := none

/-- Python `int(data)` on the decimal digit strings that occur as `unich`
values (`None` for anything else, standing for the `ValueError` of
`int`). -/
def parseNatDigits (v : Str) : Option Nat :=
  if v = [] ∨ ¬ v.all (fun c => c.isDigit) then none
  else some (v.foldl (fun acc c => acc * 10 + (c.toNat - 48)) 0)

/-- Python 2 `unichr(int(data))` with the handler's `except ValueError`
fallback to U+FFFD: a malformed integer or an out-of-range code point
yields the replacement character.  (Python 2 would produce a lone
surrogate for code points in the surrogate range; Lean's `Char` cannot
represent those, so they also map to U+FFFD — they never occur in
snapshots and have the same length 1.) -/
def pyUnichr (v : Str) : Str :=
  match parseNatDigits v with
  | none => ['�']
  | some code =>
    if h : code < 0xD800 ∨ (0xE000 ≤ code ∧ code < 0x110000) then
      [Char.ofNatAux code (by rcases h with h | h <;> omega)]
    else ['�']

/-- `_CharacterDataHandler`: requires the current parent to be a node with
the `format` attribute; overwrites its `size` and `text`, advances the
running offset, and records it as the last text node. -/
def charDataStep (st : BState) (data : Str) : Except ParseErr BState :=
  match st.stack with
  | [] => .error .charDataNoFormatParent
  | p :: rest =>
    if p.data.format.isSome then
      .ok { st with
        stack := { p with data := { p.data with size := data.length, text := some data } } :: rest,
        fieldOffset := st.fieldOffset + data.length,
        lastTextNode := some data }
    else .error .charDataNoFormatParent

/-- Create a node (`NodeField.__init__`) and descend into it
(`self.currentParentNode = node`). -/
def pushNode (st : BState) (d : NodeData) : BState :=
  { st with stack := { data := d, children := [] } :: st.stack }

/-- The data of a freshly created control node. -/
def controlData (attrs : Attrs) (off : Nat) (lt : Option Str) : NodeData :=
  { control := some attrs, offset := off, size := 0, prevText := lt }

/-- The data of a freshly created format node. -/
def formatData (attrs : Attrs) (off : Nat) (lt : Option Str) : NodeData :=
  { format := some attrs, offset := off, size := 0, prevText := lt }

/-- `_EndElementHandler`'s effect on the grandparent: accumulate the closed
child's size and record the child (in the source the child was appended at
creation; see `materializeStack`). -/
def closeInto (p : OpenNode) (node : NodeField) : OpenNode :=
  { data := { p.data with size := p.data.size + node.data.size },
    children := p.children ++ [node] }

/-- `_EndElementHandler` for `control`/`text` with a non-empty stack: pop
the current parent; a closed toplevel node joins `finished`, otherwise its
size is added to the grandparent. -/
def closeTop (st : BState) (top : OpenNode) (rest : List OpenNode) : BState :=
  match rest with
  | [] => { st with
      stack := [],
      finished := st.finished ++ [NodeField.mk top.data top.children] }
  | p :: rest' => { st with stack := closeInto p (NodeField.mk top.data top.children) :: rest' }

/-- One expat event, as handled by `_startElementHandler`,
`_EndElementHandler` and `_CharacterDataHandler`. -/
def stepEvent (st : BState) (e : BEvent) : Except ParseErr BState :=
  match e with
  | .charData data => charDataStep st data
  | .startE tag attrs =>
    if tag = str "unich" then
      match attrsGet attrs (str "value") with
      | none => .ok st
      | some v => charDataStep st (pyUnichr v)
    else if tag = str "control" then
      match attrsGet attrs (str "role") with
      | none => .error .missingRole
      | some _ => .ok (pushNode st (controlData attrs st.fieldOffset st.lastTextNode))
    else if tag = str "text" then
      .ok (pushNode st (formatData attrs st.fieldOffset st.lastTextNode))
    else .error .unknownStartTag
  | .endE tag =>
    if tag = str "unich" then .ok st
    else if tag = str "control" ∨ tag = str "text" then
      match st.stack with
      | [] => .error .noCurrentParent
      | top :: rest => .ok (closeTop st top rest)
    else .error .unknownEndTag

/-- Feed the events to the handlers, stopping at the first raised
exception; the returned state is the one at the point of the raise (a
failing handler has not yet mutated anything). -/
def runEvents (st : BState) : List BEvent → BState × Option ParseErr
  | [] => (st, none)
  | e :: es =>
    match stepEvent st e with
    | .ok st' => runEvents st' es
    | .error err => (st, some err)

/-- `NodeManager.parseXML`: reset the builder state, then parse. -/
def parseXML (events : List BEvent) : BState × Option ParseErr :=
  runEvents {} events

/-- Close the still-open stack without the parent-size accumulation of a
real close event (in the source an open child already sits in its parent's
`children` list; this reconstructs that view for partial trees). -/
def materializeUp (m : NodeField) : List OpenNode → NodeField
  | [] => m
  | p :: rest => materializeUp (.mk p.data (p.children ++ [m])) rest

def materializeStack : List OpenNode → Option NodeField
  | [] => none
  | top :: rest => some (materializeUp (.mk top.data top.children) rest)

/-- `self.mainNode` after a parse: the first node ever created — the first
closed toplevel node, or, in a truncated parse, the outermost open node. -/
def mainNodeOf (st : BState) : Option NodeField :=
  match st.finished with
  | n :: _ => some n
  | [] => materializeStack st.stack

/-- The tree a completed builder run hands to the manager: `none` when the
parse raised or never created a node. -/
def buildTree (events : List BEvent) : Option NodeField :=
  match parseXML events with
  | (st, none) => mainNodeOf st
  | (_, some _) => none

/-! ## The manager and its update protocol (`NodeManager`)

The treeInterceptor collaborator is abstracted by `TIEnv`: whether it
exists (`present`, `self.treeInterceptor is None`) and reports ready, the
result of the first `POSITION_LAST` extent probe (`none` when
`makeTextInfo` or `_endOffset` raises; the value is `_endOffset + 1`), the
`POSITION_ALL` range, the snapshot's event stream, the caret-offset probe
(`none` when it raises), the second `POSITION_LAST` probe, and the clock
(`time.time()` for the build identifier).  Two independently-varying
probes model a source that mutates concurrently with the build. -/

structure TIEnv where
  present : Bool := true
  tiReady : Bool := true
  probe1 : Option Nat := none
  allStart : Nat := 0
  allEnd : Nat := 0
  snapshot : List BEvent := []
  caret : Option Nat := none
  probe2 : Option Nat := none
  now : Nat := 0

/-- The manager state mutated by `update`.  (`devNode` is never assigned a
value in the source, so `NodeManager.searchOffset` always walks
`mainNode`; `caretNode` is always assigned together with `_curNode`.) -/
structure NMState where
  ready : Bool := false
  treeInterceptorSize : Nat := 0
  mainNode : Option NodeField := none
  identifier : Option Nat := none
  updating : Bool := false
  curNode : Option NodeField := none

/-- What a call to `update` produced: a normal return value, or an
exception that escaped the call. -/
inductive UpdResult where
  | ret (b : Bool)
  | exn (e : ParseErr)
deriving Repr, DecidableEq

/-- The two asynchronous signals `update` can hand to the scheduler. -/
inductive SchedEvent where
  /-- `eventName="updateNodeManager"`: retry the whole update later. -/
  | updateNodeManager
  /-- `eventName="nodeManagerUpdated"`: a fresh tree is available. -/
  | nodeManagerUpdated
deriving Repr, DecidableEq

/-- One call to `update`, fully observed: the state it leaves behind, what
it returns or raises, the scheduler event it sends, and two pure
instrumentation counters — how many snapshots it took and how many build
(parse) attempts it ran. -/
structure UpdOutcome where
  st : NMState
  result : UpdResult
  sent : Option SchedEvent := none
  snapshots : Nat := 0
  builds : Nat := 0

/-- `NodeManager._get_isReady`: the readiness the query operations gate
on. -/
def isReadyM (st : NMState) (env : TIEnv) : Bool :=
  st.ready && env.present && env.tiReady

/-- `NodeManager.getCaretNode` as called from inside `update` (note that at
that point `self._ready` still holds its value from before the call):
probe the caret and search the current `mainNode` by offset; any raise
yields `None`. -/
def getCaretM (st : NMState) (env : TIEnv) : Option NodeField :=
  if isReadyM st env then
    match env.caret with
    | none => none
    | some o =>
      match st.mainNode with
      | none => none
      | some m => m.searchOffset o
  else none

/-- `NodeManager.update`, step for step.  The instrumentation counters do
not influence the control flow; they only record that the snapshot /
build phase was entered. -/
def update (st : NMState) (env : TIEnv) : UpdOutcome :=
  if ¬ env.present ∨ ¬ env.tiReady then
    { st := { st with ready := false }, result := .ret false }
  else
    match env.probe1 with
    | none => { st := { st with ready := false }, result := .ret false }
    | some size1 =>
      if size1 = st.treeInterceptorSize then
        { st := st, result := .ret false }
      else
        let st1 := { st with treeInterceptorSize := size1, updating := true }
        if env.allStart = env.allEnd then
          { st := { st1 with ready := false }, result := .ret false }
        else
          match parseXML env.snapshot with
          | (bst, some err) =>
            { st := { st1 with mainNode := mainNodeOf bst },
              result := .exn err, snapshots := 1, builds := 1 }
          | (bst, none) =>
            let st2 := { st1 with mainNode := mainNodeOf bst }
            match mainNodeOf bst with
            | none =>
              { st := { st2 with updating := false, ready := false },
                result := .ret false, snapshots := 1, builds := 1 }
            | some _ =>
              let st3 := { st2 with identifier := some env.now, updating := false }
              let st4 := { st3 with curNode := getCaretM st3 env }
              match env.probe2 with
              | none =>
                { st := { st4 with ready := false }, result := .ret false,
                  snapshots := 1, builds := 1 }
              | some size2 =>
                if size2 ≠ size1 then
                  { st := { st4 with ready := false }, result := .ret false,
                    sent := some .updateNodeManager, snapshots := 1, builds := 1 }
                else
                  { st := { st4 with ready := true }, result := .ret true,
                    sent := some .nodeManagerUpdated, snapshots := 1, builds := 1 }

/-- `NodeManager.searchNode`: gate on readiness, then run the node-level
search from each root (default: the main node), skipping excluded roots.
(When ready, `mainNode` is never `None` in the source; the `[]` fallback
is unreachable.) -/
def managerSearchNode (st : NMState) (env : TIEnv) (roots : Option (List NodeField))
    (exclude : List NodeField) (kwargs : Criteria) : Except Unit (List NodeField) :=
  if ¬ isReadyM st env then .ok []
  else
    let rootsL := match roots with
      | some rs => rs
      | none => match st.mainNode with
        | some m => [m]
        | none => []
    go rootsL
where
  go : List NodeField → Except Unit (List NodeField)
    | [] => .ok []
    | n :: rest =>
      if !exclude.isEmpty && memByEq n exclude then go rest
      else
        match n.searchNode exclude 0 0 kwargs with
        | .error e => .error e
        | .ok r =>
          match go rest with
          | .error e => .error e
          | .ok r' => .ok (r ++ r')

/-! ## Snapshot documents

The snapshots the content source produces (and which expat, always
enforcing well-formedness, turns into the event stream) consist of nested
`control` elements, `text` elements whose content is character data —
delivered by expat in one or more non-empty runs — possibly interspersed
with empty `unich` elements carrying one code point, and nothing else.
`XDoc` is that input vocabulary; `XDoc.serialize` is the event stream
expat delivers for it. -/

inductive XContent where
  /-- One character-data run (expat never delivers an empty one). -/
  | chunk (s : Str)
  /-- An empty `unich` element with its `value` attribute. -/
  | uni (v : Str)
deriving Repr, DecidableEq

inductive XDoc where
  | control (attrs : Attrs) (children : List XDoc)
  | textElem (attrs : Attrs) (content : List XContent)

/-- The character data one content item contributes. -/
def contentData : XContent → Str
  | .chunk s => s
  | .uni v => pyUnichr v

/-- The events one content item produces. -/
def contentEvents : XContent → List BEvent
  | .chunk s => [.charData s]
  | .uni v => [.startE (str "unich") [(str "value", v)], .endE (str "unich")]

mutual

def XDoc.serialize : XDoc → List BEvent
  | .control attrs cs =>
    .startE (str "control") attrs :: (XDoc.serializeList cs ++ [.endE (str "control")])
  | .textElem attrs content =>
    .startE (str "text") attrs :: ((content.map contentEvents).flatten ++ [.endE (str "text")])

def XDoc.serializeList : List XDoc → List BEvent
  | [] => []
  | d :: ds => d.serialize ++ XDoc.serializeList ds

end

mutual

/-- Every `control` element carries a `role` attribute (guaranteed by the
external `_normalizeControlField`); exactly the condition under which the
builder raises no exception on the serialized events. -/
def XDoc.rolesOK : XDoc → Bool
  | .control attrs cs => (attrsGet attrs (str "role")).isSome && XDoc.rolesOKList cs
  | .textElem _ _ => true

def XDoc.rolesOKList : List XDoc → Bool
  | [] => true
  | d :: ds => d.rolesOK && XDoc.rolesOKList ds

end

mutual

/-- All character-data runs are non-empty (expat never delivers an empty
run, and a `unich` element always contributes exactly one character). -/
def XDoc.wfChunks : XDoc → Bool
  | .control _ cs => XDoc.wfChunksList cs
  | .textElem _ content => content.all (fun c => (contentData c).length ≠ 0)

def XDoc.wfChunksList : List XDoc → Bool
  | [] => true
  | d :: ds => d.wfChunks && XDoc.wfChunksList ds

end

/-! ## A structural description of the builder's work

`buildDoc` computes, by structural recursion over the document, the node
the event-driven builder constructs for it, together with the amount the
running offset advances and the final "last text node".  The equivalence
with the event-level builder is proved below (`runEvents_serialize`); the
tree invariants are then established for `buildDoc` by induction. -/

structure DocRes where
  node : NodeField
  adv : Nat
  lastText : Option Str

structure DocsRes where
  nodes : List NodeField
  adv : Nat
  lastText : Option Str

/-- The character-data runs over one open `text` element, summarized: the
text that survives is the last run's (each run overwrites `text` and
`size`), while the offset advance is the total length of all runs. -/
def runContent : List XContent → Option Str × Nat
  | [] => (none, 0)
  | c :: rest =>
    let r := runContent rest
    (match r.1 with
     | some t => some t
     | none => some (contentData c),
     (contentData c).length + r.2)

mutual

def buildDoc (off : Nat) (lt : Option Str) : XDoc → DocRes
  | .control attrs cs =>
    let r := buildDocs off lt cs
    let d : NodeData :=
      { control := some attrs, offset := off,
        size := (r.nodes.map (fun c => c.data.size)).sum, prevText := lt }
    { node := .mk d r.nodes, adv := r.adv, lastText := r.lastText }
  | .textElem attrs content =>
    let rc := runContent content
    let d : NodeData :=
      { format := some attrs, text := rc.1, offset := off,
        size := (rc.1.map List.length).getD 0, prevText := lt }
    { node := .mk d [], adv := rc.2,
      lastText := match rc.1 with
        | some t => some t
        | none => lt }

def buildDocs (off : Nat) (lt : Option Str) : List XDoc → DocsRes
  | [] => { nodes := [], adv := 0, lastText := lt }
  | d :: ds =>
    let r := buildDoc off lt d
    let rs := buildDocs (off + r.adv) r.lastText ds
    { nodes := r.node :: rs.nodes, adv := r.adv + rs.adv, lastText := rs.lastText }

end

/-! ## Induction principles for the nested tree types -/

theorem nodeFieldInd (P : NodeField → Prop)
    (h : ∀ d cs, (∀ c ∈ cs, P c) → P (.mk d cs)) : ∀ n, P n := by
  intro n
  match n with
  | .mk d cs =>
    apply h
    intro c hc
    exact nodeFieldInd P h c
termination_by n => sizeOf n
decreasing_by
  have := List.sizeOf_lt_of_mem hc
  simp only [NodeField.mk.sizeOf_spec]
  omega

theorem xdocInd (P : XDoc → Prop)
    (hc : ∀ attrs cs, (∀ d ∈ cs, P d) → P (.control attrs cs))
    (ht : ∀ attrs content, P (.textElem attrs content)) : ∀ d, P d := by
  intro d
  match d with
  | .control attrs cs =>
    apply hc
    intro c hcm
    exact xdocInd P hc ht c
  | .textElem attrs content => exact ht attrs content
termination_by d => sizeOf d
decreasing_by
  have := List.sizeOf_lt_of_mem hcm
  simp only [XDoc.control.sizeOf_spec]
  omega

/-! ## Basic equations for the event runner -/

theorem runEvents_nil (st : BState) : runEvents st [] = (st, none) := rfl

theorem runEvents_cons_ok {st st' : BState} {e : BEvent} (es : List BEvent)
    (h : stepEvent st e = .ok st') : runEvents st (e :: es) = runEvents st' es := by
  simp [runEvents, h]

theorem runEvents_cons_err {st : BState} {e : BEvent} {err : ParseErr} (es : List BEvent)
    (h : stepEvent st e = .error err) : runEvents st (e :: es) = (st, some err) := by
  simp [runEvents, h]

theorem runEvents_append_ok {st st' : BState} {es1 : List BEvent} (es2 : List BEvent)
    (h : runEvents st es1 = (st', none)) :
    runEvents st (es1 ++ es2) = runEvents st' es2 := by
  induction es1 generalizing st with
  | nil =>
    simp only [runEvents_nil, Prod.mk.injEq] at h
    simp [h.1]
  | cons e es ih =>
    rw [List.cons_append]
    cases hs : stepEvent st e with
    | ok st1 =>
      rw [runEvents_cons_ok es hs] at h
      rw [runEvents_cons_ok (es ++ es2) hs]
      exact ih h
    | error err =>
      rw [runEvents_cons_err es hs] at h
      simp at h

theorem runEvents_append_err {st st' : BState} {es1 : List BEvent} {err : ParseErr}
    (es2 : List BEvent) (h : runEvents st es1 = (st', some err)) :
    runEvents st (es1 ++ es2) = (st', some err) := by
  induction es1 generalizing st with
  | nil => simp [runEvents_nil] at h
  | cons e es ih =>
    rw [List.cons_append]
    cases hs : stepEvent st e with
    | ok st1 =>
      rw [runEvents_cons_ok es hs] at h
      rw [runEvents_cons_ok (es ++ es2) hs]
      exact ih h
    | error e' =>
      rw [runEvents_cons_err es hs] at h
      rw [runEvents_cons_err (es ++ es2) hs]
      exact h

/-! ## Reduced step equations for the concrete tags -/

theorem stepEvent_startControl (st : BState) (attrs : Attrs) :
    stepEvent st (.startE (str "control") attrs) =
      match attrsGet attrs (str "role") with
      | none => .error .missingRole
      | some _ => .ok (pushNode st (controlData attrs st.fieldOffset st.lastTextNode)) := rfl

theorem stepEvent_startText (st : BState) (attrs : Attrs) :
    stepEvent st (.startE (str "text") attrs) =
      .ok (pushNode st (formatData attrs st.fieldOffset st.lastTextNode)) := rfl

theorem stepEvent_startUnich (st : BState) (v : Str) :
    stepEvent st (.startE (str "unich") [(str "value", v)]) =
      charDataStep st (pyUnichr v) := rfl

theorem stepEvent_endUnich (st : BState) :
    stepEvent st (.endE (str "unich")) = .ok st := rfl

theorem stepEvent_endControl (st : BState) :
    stepEvent st (.endE (str "control")) =
      match st.stack with
      | [] => .error .noCurrentParent
      | top :: rest => .ok (closeTop st top rest) := rfl

theorem stepEvent_endText (st : BState) :
    stepEvent st (.endE (str "text")) =
      match st.stack with
      | [] => .error .noCurrentParent
      | top :: rest => .ok (closeTop st top rest) := rfl

/-! ## Equivalence of the event-driven builder with `buildDoc` -/

/-- `closeInto` lifted to a list of closed children. -/
def closeIntoL (p : OpenNode) (nodes : List NodeField) : OpenNode :=
  { data := { p.data with size := p.data.size + (nodes.map (fun c => c.data.size)).sum },
    children := p.children ++ nodes }

/-- The net effect on the builder state of the serialized events of one
document item. -/
def applyRes (st : BState) (r : DocRes) : BState :=
  match st.stack with
  | [] => { st with
      finished := st.finished ++ [r.node],
      fieldOffset := st.fieldOffset + r.adv,
      lastTextNode := r.lastText }
  | p :: rest => { st with
      stack := closeInto p r.node :: rest,
      fieldOffset := st.fieldOffset + r.adv,
      lastTextNode := r.lastText }

/-- The net effect of the serialized events of a sibling list. -/
def applyResL (st : BState) (rs : DocsRes) : BState :=
  match st.stack with
  | [] => { st with
      finished := st.finished ++ rs.nodes,
      fieldOffset := st.fieldOffset + rs.adv,
      lastTextNode := rs.lastText }
  | p :: rest => { st with
      stack := closeIntoL p rs.nodes :: rest,
      fieldOffset := st.fieldOffset + rs.adv,
      lastTextNode := rs.lastText }

theorem closeIntoL_nil (p : OpenNode) : closeIntoL p [] = p := by
  obtain ⟨pd, pch⟩ := p
  obtain ⟨c, f, t, o, sz, pt⟩ := pd
  simp [closeIntoL]

theorem closeIntoL_cons (p : OpenNode) (n : NodeField) (ns : List NodeField) :
    closeIntoL p (n :: ns) = closeIntoL (closeInto p n) ns := by
  obtain ⟨pd, pch⟩ := p
  obtain ⟨c, f, t, o, sz, pt⟩ := pd
  simp [closeIntoL, closeInto]
  omega

theorem applyResL_nilRes (st : BState) (lt : Option Str) (h : st.lastTextNode = lt) :
    applyResL st ⟨[], 0, lt⟩ = st := by
  obtain ⟨stk, fin, fo, lt'⟩ := st
  subst h
  cases stk with
  | nil => simp [applyResL]
  | cons p rest => simp [applyResL, closeIntoL_nil]

theorem applyRes_stack_cons (st : BState) (r : DocRes) (p : OpenNode)
    (rest : List OpenNode) (h : st.stack = p :: rest) :
    (applyRes st r).stack = closeInto p r.node :: rest := by
  obtain ⟨stk, fin, fo, lt'⟩ := st
  simp only at h
  subst h
  rfl

theorem applyRes_fieldOffset (st : BState) (r : DocRes) :
    (applyRes st r).fieldOffset = st.fieldOffset + r.adv := by
  obtain ⟨stk, fin, fo, lt'⟩ := st
  cases stk <;> rfl

theorem applyRes_lastTextNode (st : BState) (r : DocRes) :
    (applyRes st r).lastTextNode = r.lastText := by
  obtain ⟨stk, fin, fo, lt'⟩ := st
  cases stk <;> rfl

theorem applyResL_cons (st : BState) (r : DocRes) (rs : DocsRes) :
    applyResL st ⟨r.node :: rs.nodes, r.adv + rs.adv, rs.lastText⟩ =
      applyResL (applyRes st r) rs := by
  obtain ⟨stk, fin, fo, lt'⟩ := st
  cases stk with
  | nil =>
    simp [applyResL, applyRes]
    omega
  | cons p rest =>
    simp [applyResL, applyRes, closeIntoL_cons]
    omega

/-- The summarized effect of the character-data runs on the open format
node's data. -/
def contentUpd (d : NodeData) (content : List XContent) : NodeData :=
  match (runContent content).1 with
  | some t => { d with text := some t, size := t.length }
  | none => d

/-- The summarized effect of the character-data runs on `lastTextNode`. -/
def contentLt (lt : Option Str) (content : List XContent) : Option Str :=
  match (runContent content).1 with
  | some t => some t
  | none => lt

theorem stepEvent_charData (st : BState) (s : Str) :
    stepEvent st (.charData s) = charDataStep st s := rfl

theorem charDataStep_fmt {d : NodeData} (hfmt : d.format.isSome = true)
    (ch : List NodeField) (stk : List OpenNode) (fin : List NodeField)
    (fo : Nat) (lt : Option Str) (data : Str) :
    charDataStep ⟨⟨d, ch⟩ :: stk, fin, fo, lt⟩ data =
      .ok ⟨⟨{ d with size := data.length, text := some data }, ch⟩ :: stk,
        fin, fo + data.length, some data⟩ := by
  simp [charDataStep, hfmt]

theorem runEvents_content (content : List XContent) :
    ∀ (d : NodeData), d.format.isSome = true →
    ∀ (ch : List NodeField) (stk : List OpenNode) (fin : List NodeField)
      (fo : Nat) (lt : Option Str),
    runEvents ⟨⟨d, ch⟩ :: stk, fin, fo, lt⟩ ((content.map contentEvents).flatten) =
      (⟨⟨contentUpd d content, ch⟩ :: stk, fin, fo + (runContent content).2,
        contentLt lt content⟩, none) := by
  induction content with
  | nil =>
    intro d hfmt ch stk fin fo lt
    simp [runEvents_nil, contentUpd, contentLt, runContent]
  | cons c rest ih =>
    intro d hfmt ch stk fin fo lt
    have hstep :
        runEvents ⟨⟨d, ch⟩ :: stk, fin, fo, lt⟩ (((c :: rest).map contentEvents).flatten) =
          runEvents ⟨⟨{ d with size := (contentData c).length, text := some (contentData c) }, ch⟩
              :: stk, fin, fo + (contentData c).length, some (contentData c)⟩
            ((rest.map contentEvents).flatten) := by
      cases c with
      | chunk s =>
        rw [List.map_cons, List.flatten_cons]
        show runEvents _ (.charData s :: _) = _
        rw [runEvents_cons_ok _ ((stepEvent_charData _ s).trans
          (charDataStep_fmt hfmt ch stk fin fo lt s))]
        rfl
      | uni v =>
        rw [List.map_cons, List.flatten_cons]
        show runEvents _ (.startE (str "unich") [(str "value", v)] :: .endE (str "unich") :: _) = _
        rw [runEvents_cons_ok _ ((stepEvent_startUnich _ v).trans
          (charDataStep_fmt hfmt ch stk fin fo lt (pyUnichr v)))]
        rw [runEvents_cons_ok _ (stepEvent_endUnich _)]
        rfl
    rw [hstep, ih _ (by simpa using hfmt)]
    have hupd : contentUpd { d with size := (contentData c).length, text := some (contentData c) } rest =
        contentUpd d (c :: rest) := by
      obtain ⟨cc, ff, tt, oo, ss, pp⟩ := d
      simp only [contentUpd, runContent]
      cases hrc : (runContent rest).1 <;> simp [hrc]
    have hlt : contentLt (some (contentData c)) rest = contentLt lt (c :: rest) := by
      simp only [contentLt, runContent]
      cases hrc : (runContent rest).1 <;> simp [hrc]
    rw [hupd, hlt]
    have hfo : fo + (contentData c).length + (runContent rest).2 =
        fo + (runContent (c :: rest)).2 := by
      simp only [runContent]
      omega
    rw [hfo]

theorem runEvents_serializeList_of (ds : List XDoc)
    (ih : ∀ d ∈ ds, d.rolesOK = true → ∀ st : BState,
      runEvents st d.serialize =
        (applyRes st (buildDoc st.fieldOffset st.lastTextNode d), none))
    (hok : XDoc.rolesOKList ds = true) :
    ∀ st : BState,
      runEvents st (XDoc.serializeList ds) =
        (applyResL st (buildDocs st.fieldOffset st.lastTextNode ds), none) := by
  induction ds with
  | nil =>
    intro st
    rw [XDoc.serializeList, runEvents_nil, buildDocs]
    rw [applyResL_nilRes st st.lastTextNode rfl]
  | cons d ds' ihl =>
    intro st
    rw [XDoc.rolesOKList, Bool.and_eq_true] at hok
    rw [XDoc.serializeList]
    rw [runEvents_append_ok _ (ih d (by simp) hok.1 st)]
    rw [ihl (fun d' hd' => ih d' (by simp [hd'])) hok.2]
    rw [applyRes_fieldOffset, applyRes_lastTextNode]
    rw [buildDocs]
    exact congrArg (fun x => (x, none))
      (applyResL_cons st (buildDoc st.fieldOffset st.lastTextNode d) _).symm

theorem runEvents_serialize (doc : XDoc) :
    doc.rolesOK = true → ∀ st : BState,
      runEvents st doc.serialize =
        (applyRes st (buildDoc st.fieldOffset st.lastTextNode doc), none) := by
  induction doc using xdocInd with
  | hc attrs cs ih =>
    intro hok st
    rw [XDoc.rolesOK, Bool.and_eq_true] at hok
    obtain ⟨hrole, hoks⟩ := hok
    rw [Option.isSome_iff_exists] at hrole
    obtain ⟨rv, hrv⟩ := hrole
    obtain ⟨stk, fin, fo, lt⟩ := st
    rw [XDoc.serialize]
    rw [runEvents_cons_ok _ (by rw [stepEvent_startControl, hrv])]
    dsimp only [pushNode]
    rw [runEvents_append_ok _
      (runEvents_serializeList_of cs ih hoks ⟨⟨controlData attrs fo lt, []⟩ :: stk, fin, fo, lt⟩)]
    show runEvents _ [BEvent.endE (str "control")] = _
    have hstk : (applyResL ⟨⟨controlData attrs fo lt, []⟩ :: stk, fin, fo, lt⟩
        (buildDocs fo lt cs)).stack =
        closeIntoL ⟨controlData attrs fo lt, []⟩ (buildDocs fo lt cs).nodes :: stk := rfl
    rw [runEvents]
    rw [stepEvent_endControl]
    rw [hstk]
    cases stk with
    | nil =>
      rw [buildDoc]
      simp [closeTop, applyRes, applyResL, closeIntoL, closeInto, controlData, runEvents]
    | cons p rest =>
      rw [buildDoc]
      simp [closeTop, applyRes, applyResL, closeIntoL, closeInto, controlData, runEvents]
  | ht attrs content =>
    intro _ st
    obtain ⟨stk, fin, fo, lt⟩ := st
    rw [XDoc.serialize]
    rw [runEvents_cons_ok _ (stepEvent_startText ⟨stk, fin, fo, lt⟩ attrs)]
    dsimp only [pushNode]
    rw [runEvents_append_ok _
      (runEvents_content content (formatData attrs fo lt) rfl [] stk fin fo lt)]
    show runEvents _ [BEvent.endE (str "text")] = _
    rw [runEvents]
    rw [stepEvent_endText]
    rw [buildDoc]
    cases stk with
    | nil =>
      cases hrc : (runContent content).1 with
      | none =>
        simp [closeTop, applyRes, closeInto, contentUpd, contentLt, formatData, hrc, runEvents]
      | some t =>
        simp [closeTop, applyRes, closeInto, contentUpd, contentLt, formatData, hrc, runEvents]
    | cons p rest =>
      cases hrc : (runContent content).1 with
      | none =>
        simp [closeTop, applyRes, closeInto, contentUpd, contentLt, formatData, hrc, runEvents]
      | some t =>
        simp [closeTop, applyRes, closeInto, contentUpd, contentLt, formatData, hrc, runEvents]

/-! ## The built tree and its invariants -/

theorem buildTree_serialize (doc : XDoc) (hok : doc.rolesOK = true) :
    buildTree doc.serialize = some (buildDoc 0 none doc).node := by
  rw [buildTree, parseXML, runEvents_serialize doc hok]
  simp [mainNodeOf, applyRes]

theorem serializeList_err (ds : List XDoc)
    (ih : ∀ d ∈ ds, d.rolesOK = false →
      ∀ st : BState, ∃ st' e, runEvents st d.serialize = (st', some e))
    (hbad : XDoc.rolesOKList ds = false) :
    ∀ st : BState, ∃ st' e, runEvents st (XDoc.serializeList ds) = (st', some e) := by
  induction ds with
  | nil => simp [XDoc.rolesOKList] at hbad
  | cons d ds' ihl =>
    intro st
    rw [XDoc.rolesOKList, Bool.and_eq_false_iff] at hbad
    rw [XDoc.serializeList]
    cases hd : d.rolesOK with
    | false =>
      obtain ⟨st', e, h⟩ := ih d (by simp) hd st
      exact ⟨st', e, runEvents_append_err _ h⟩
    | true =>
      have hbad' : XDoc.rolesOKList ds' = false := by
        rcases hbad with h | h
        · rw [hd] at h; simp at h
        · exact h
      rw [runEvents_append_ok _ (runEvents_serialize d hd st)]
      exact ihl (fun d' hd' => ih d' (by simp [hd'])) hbad' _

theorem serialize_err (doc : XDoc) : doc.rolesOK = false →
    ∀ st : BState, ∃ st' e, runEvents st doc.serialize = (st', some e) := by
  induction doc using xdocInd with
  | hc attrs cs ih =>
    intro hbad st
    rw [XDoc.rolesOK, Bool.and_eq_false_iff] at hbad
    rw [XDoc.serialize]
    cases hrole : attrsGet attrs (str "role") with
    | none =>
      refine ⟨st, .missingRole, ?_⟩
      exact runEvents_cons_err _ (by rw [stepEvent_startControl, hrole])
    | some rv =>
      have hbad' : XDoc.rolesOKList cs = false := by
        rcases hbad with h | h
        · rw [hrole] at h; simp at h
        · exact h
      obtain ⟨stk, fin, fo, lt⟩ := st
      rw [runEvents_cons_ok _ (by rw [stepEvent_startControl, hrole])]
      dsimp only [pushNode]
      obtain ⟨st', e, h⟩ := serializeList_err cs ih hbad'
        ⟨⟨controlData attrs fo lt, []⟩ :: stk, fin, fo, lt⟩
      exact ⟨st', e, runEvents_append_err _ h⟩
  | ht attrs content =>
    intro hbad
    simp [XDoc.rolesOK] at hbad

theorem buildTree_err (doc : XDoc) (hbad : doc.rolesOK = false) :
    buildTree doc.serialize = none := by
  obtain ⟨st', e, h⟩ := serialize_err doc hbad {}
  rw [buildTree, parseXML, h]

/-! ## Size aggregation -/

theorem buildDocs_sizeOK_of (ds : List XDoc)
    (ih : ∀ d ∈ ds, ∀ off lt, sizeOKb (buildDoc off lt d).node = true) :
    ∀ off lt, sizeOKbList (buildDocs off lt ds).nodes = true := by
  induction ds with
  | nil => intro off lt; rfl
  | cons d ds' ihl =>
    intro off lt
    rw [buildDocs]
    show sizeOKbList ((buildDoc off lt d).node :: _) = true
    rw [sizeOKbList]
    rw [ih d (by simp) off lt, ihl (fun d' hd' => ih d' (by simp [hd']))]
    rfl

theorem buildDoc_sizeOK (doc : XDoc) : ∀ off lt, sizeOKb (buildDoc off lt doc).node = true := by
  induction doc using xdocInd with
  | hc attrs cs ih =>
    intro off lt
    rw [buildDoc]
    show sizeOKb (.mk _ (buildDocs off lt cs).nodes) = true
    rw [sizeOKb]
    rw [buildDocs_sizeOK_of cs ih off lt]
    simp
  | ht attrs content =>
    intro off lt
    rw [buildDoc]
    cases hrc : (runContent content).1 with
    | none =>
      show sizeOKb (.mk _ []) = true
      rw [sizeOKb]
      simp [hrc, sizeOKbList]
    | some t =>
      show sizeOKb (.mk _ []) = true
      rw [sizeOKb]
      simp [hrc, sizeOKbList]

/-! ## Leaf interval bounds and document-order monotonicity -/

theorem runContent_some_mem : ∀ (content : List XContent) (t : Str),
    (runContent content).1 = some t → ∃ c ∈ content, contentData c = t := by
  intro content
  induction content with
  | nil => intro t h; simp [runContent] at h
  | cons c rest ih =>
    intro t h
    rw [runContent] at h
    cases hrc : (runContent rest).1 with
    | some t' =>
      rw [hrc] at h
      simp only at h
      obtain ⟨c', hc', hc'2⟩ := ih t' hrc
      cases h
      exact ⟨c', by simp [hc'], hc'2⟩
    | none =>
      rw [hrc] at h
      simp only at h
      cases h
      exact ⟨c, by simp, rfl⟩

theorem runContent_some_le : ∀ (content : List XContent) (t : Str),
    (runContent content).1 = some t → t.length ≤ (runContent content).2 := by
  intro content
  induction content with
  | nil => intro t h; simp [runContent] at h
  | cons c rest ih =>
    intro t h
    rw [runContent] at h
    rw [runContent]
    cases hrc : (runContent rest).1 with
    | some t2 =>
      rw [hrc] at h
      simp only [Option.some_inj] at h
      subst h
      have := ih t2 hrc
      simp only
      omega
    | none =>
      rw [hrc] at h
      simp only [Option.some_inj] at h
      subst h
      simp only
      omega

theorem buildDocs_leafInv_of (ds : List XDoc)
    (ih : ∀ d ∈ ds, d.wfChunks = true → ∀ off lt,
      (∀ l ∈ (buildDoc off lt d).node.leaves,
        off ≤ l.data.offset ∧ l.data.offset + l.data.size ≤ off + (buildDoc off lt d).adv ∧
        1 ≤ l.data.size) ∧
      List.Pairwise leafR (buildDoc off lt d).node.leaves)
    (hwf : XDoc.wfChunksList ds = true) :
    ∀ off lt,
      (∀ l ∈ NodeField.leavesList (buildDocs off lt ds).nodes,
        off ≤ l.data.offset ∧ l.data.offset + l.data.size ≤ off + (buildDocs off lt ds).adv ∧
        1 ≤ l.data.size) ∧
      List.Pairwise leafR (NodeField.leavesList (buildDocs off lt ds).nodes) := by
  induction ds with
  | nil =>
    intro off lt
    exact ⟨by intro l hl; simp [buildDocs, NodeField.leavesList] at hl, by
      simp [buildDocs, NodeField.leavesList]⟩
  | cons d ds' ihl =>
    intro off lt
    rw [XDoc.wfChunksList, Bool.and_eq_true] at hwf
    obtain ⟨hwd, hwds⟩ := hwf
    have hd := ih d (by simp) hwd off lt
    have hds := ihl (fun d' hd' => ih d' (by simp [hd'])) hwds
      (off + (buildDoc off lt d).adv) (buildDoc off lt d).lastText
    rw [buildDocs]
    show (∀ l ∈ NodeField.leavesList ((buildDoc off lt d).node :: _), _) ∧
      List.Pairwise leafR (NodeField.leavesList ((buildDoc off lt d).node :: _))
    rw [NodeField.leavesList]
    constructor
    · intro l hl
      rw [List.mem_append] at hl
      rcases hl with hl | hl
      · have := hd.1 l hl
        simp only
        omega
      · have := hds.1 l hl
        simp only at this ⊢
        omega
    · rw [List.pairwise_append]
      refine ⟨hd.2, hds.2, ?_⟩
      intro a ha b hb
      have h1 := hd.1 a ha
      have h2 := hds.1 b hb
      constructor
      · omega
      · omega

theorem buildDoc_leafInv (doc : XDoc) : doc.wfChunks = true → ∀ off lt,
    (∀ l ∈ (buildDoc off lt doc).node.leaves,
      off ≤ l.data.offset ∧ l.data.offset + l.data.size ≤ off + (buildDoc off lt doc).adv ∧
      1 ≤ l.data.size) ∧
    List.Pairwise leafR (buildDoc off lt doc).node.leaves := by
  induction doc using xdocInd with
  | hc attrs cs ih =>
    intro hwf off lt
    rw [XDoc.wfChunks] at hwf
    have := buildDocs_leafInv_of cs ih hwf off lt
    rw [buildDoc]
    show (∀ l ∈ (NodeField.mk _ (buildDocs off lt cs).nodes).leaves, _) ∧
      List.Pairwise leafR (NodeField.mk _ (buildDocs off lt cs).nodes).leaves
    rw [NodeField.leaves]
    simp only [Option.isSome_none, Bool.false_eq_true, if_false]
    exact this
  | ht attrs content =>
    intro hwf off lt
    rw [XDoc.wfChunks] at hwf
    rw [buildDoc]
    cases hrc : (runContent content).1 with
    | none =>
      show (∀ l ∈ (NodeField.mk _ []).leaves, _) ∧ List.Pairwise leafR (NodeField.mk _ []).leaves
      rw [NodeField.leaves]
      simp [hrc, NodeField.leavesList]
    | some t =>
      show (∀ l ∈ (NodeField.mk _ []).leaves, _) ∧ List.Pairwise leafR (NodeField.mk _ []).leaves
      rw [NodeField.leaves]
      simp only [hrc, Option.isSome_some, if_true]
      have hle := runContent_some_le content t hrc
      obtain ⟨c, hcm, hcd⟩ := runContent_some_mem content t hrc
      have hne : (contentData c).length ≠ 0 := by
        rw [List.all_eq_true] at hwf
        simpa using hwf c hcm
      rw [hcd] at hne
      constructor
      · intro l hl
        rw [List.mem_singleton] at hl
        subst hl
        simp only [NodeField.data]
        refine ⟨le_refl _, ?_, ?_⟩
        · simp only [Option.map_some', Option.getD_some]
          omega
        · simp only [Option.map_some', Option.getD_some]
          omega
      · exact List.pairwise_singleton _ _

/-! ## Offset search via the leaf enumeration -/

theorem searchOffsetList_eq (cs : List NodeField) (o : Nat)
    (ih : ∀ c ∈ cs, c.searchOffset o = c.leaves.find? (fun l => inIval o l)) :
    NodeField.searchOffsetList cs o =
      (NodeField.leavesList cs).find? (fun l => inIval o l) := by
  induction cs with
  | nil => rw [NodeField.searchOffsetList, NodeField.leavesList]; rfl
  | cons c rest ihl =>
    rw [NodeField.searchOffsetList, NodeField.leavesList, List.find?_append]
    rw [ih c (by simp)]
    cases hf : c.leaves.find? (fun l => inIval o l) with
    | none => simp [hf, ihl (fun c' hc' => ih c' (by simp [hc']))]
    | some nd =>
      have hiv : inIval o nd = true := List.find?_some hf
      have hlen : nd.pyLen ≠ 0 := by
        simp [inIval] at hiv
        simp [NodeField.pyLen]
        omega
      simp [hf, hlen]

theorem searchOffset_eq (n : NodeField) (o : Nat) :
    n.searchOffset o = n.leaves.find? (fun l => inIval o l) := by
  induction n using nodeFieldInd with
  | h d cs ih =>
    rw [NodeField.searchOffset, NodeField.leaves]
    by_cases htxt : d.text.isSome
    · simp only [htxt, if_true, List.find?]
      by_cases hin : d.offset ≤ o ∧ o < d.offset + d.size
      · simp [inIval, hin, NodeField.data]
      · simp [inIval, hin, NodeField.data]
    · simp only [htxt, if_false]
      exact searchOffsetList_eq cs o ih

theorem find?_inIval_pairwise {L : List NodeField} {l : NodeField} {o : Nat}
    (hp : List.Pairwise leafR L) (hl : l ∈ L) (ho : inIval o l = true) :
    L.find? (fun l' => inIval o l') = some l := by
  induction L with
  | nil => simp at hl
  | cons h t ihL =>
    rw [List.pairwise_cons] at hp
    rw [List.mem_cons] at hl
    rcases hl with rfl | hl
    · simp [List.find?, ho]
    · have hh : inIval o h = false := by
        by_contra hc
        rw [Bool.not_eq_false] at hc
        have hr := hp.1 l hl
        simp only [inIval, decide_eq_true_eq] at hc ho
        obtain ⟨h1, h2⟩ := hr
        omega
      rw [List.find?]
      rw [hh]
      exact ihL hp.2 hl

/-! ## The `notIn` test empties the subtree call -/

theorem applyTest_notIn (key : Str) (vals : List Str) (cv : Option Str)
    (cur : Criteria) (found : Bool) :
    applyTest (str "notIn") key vals cv cur found =
      if search_in vals cv then .shortCircuit else .proceed cur found := rfl

theorem applyTests_notIn_sc (key : Str) (vals : List Str) :
    ∀ (cvs : List (Option Str)) (cur : Criteria) (found : Bool),
    (∃ cv ∈ cvs, search_in vals cv = true) →
    applyTests (str "notIn") key vals cvs cur found = .shortCircuit := by
  intro cvs
  induction cvs with
  | nil => intro cur found h; simp at h
  | cons cv rest ih =>
    intro cur found h
    rw [applyTests, applyTest_notIn]
    cases hcv : search_in vals cv with
    | true => rfl
    | false =>
      simp only [Bool.false_eq_true, if_false]
      apply ih
      rcases h with ⟨cv', hm, hs⟩
      rw [List.mem_cons] at hm
      rcases hm with rfl | hm
      · rw [hcv] at hs; cases hs
      · exact ⟨cv', hm, hs⟩

theorem getProp_className (n : NodeField) : n.getProp (str "className") = n.className := rfl

theorem processCrits_notIn_className (n : NodeField) (vals : List Str)
    (entries cur : Criteria) (found : Bool)
    (hmatch : (pySplit ' ' (n.className.getD [])).any
      (fun tok => search_in vals (some tok)) = true) :
    processCrits n ((str "notIn_className", vals) :: entries) cur found = .shortCircuit := by
  have hred : processCrits n ((str "notIn_className", vals) :: entries) cur found =
      match applyTests (str "notIn") (str "notIn_className") vals
        ((pySplit ' ' ((n.getProp (str "className")).getD [])).map some) cur found with
      | .proceed cur' found' => processCrits n entries cur' found'
      | s => s := rfl
  rw [hred]
  rw [applyTests_notIn_sc]
  rw [getProp_className]
  rw [List.any_eq_true] at hmatch
  obtain ⟨tok, htm, hts⟩ := hmatch
  exact ⟨some tok, List.mem_map_of_mem _ htm, hts⟩

theorem searchNode_notIn_empties_subtree (n : NodeField)
    (hctl : n.data.control.isSome = true) (vals : List Str) (entries : Criteria)
    (exclude : List NodeField) (maxIndex currentIndex : Nat)
    (hmatch : (pySplit ' ' (n.className.getD [])).any
      (fun tok => search_in vals (some tok)) = true) :
    n.searchNode exclude maxIndex currentIndex ((str "notIn_className", vals) :: entries) =
      .ok [] := by
  obtain ⟨d, cs⟩ := n
  rw [NodeField.searchNode]
  simp only [NodeField.data] at hctl
  rw [if_pos hctl]
  rw [processCrits_notIn_className _ vals entries _ true hmatch]

/-! ## Update-protocol lemmas -/

theorem managerSearchNode_not_ready (st : NMState) (env : TIEnv)
    (roots : Option (List NodeField)) (exclude : List NodeField) (kwargs : Criteria)
    (h : isReadyM st env = false) :
    managerSearchNode st env roots exclude kwargs = .ok [] := by
  simp [managerSearchNode, h]

theorem update_race (st : NMState) (env : TIEnv)
    (hp : env.present = true) (hr : env.tiReady = true)
    {n1 : Nat} (h1 : env.probe1 = some n1) (hne : n1 ≠ st.treeInterceptorSize)
    (hall : env.allStart ≠ env.allEnd)
    (hparse : (parseXML env.snapshot).2 = none)
    (hmain : (mainNodeOf (parseXML env.snapshot).1).isSome = true)
    {n2 : Nat} (h2 : env.probe2 = some n2) (hrace : n2 ≠ n1) :
    (update st env).result = .ret false ∧
    (update st env).st.ready = false ∧
    (update st env).sent = some .updateNodeManager ∧
    (update st env).builds = 1 := by
  rcases hpx : parseXML env.snapshot with ⟨bst, errOpt⟩
  rw [hpx] at hparse hmain
  simp only at hparse
  subst hparse
  obtain ⟨m, hm⟩ := Option.isSome_iff_exists.mp (by simpa using hmain)
  simp [update, hp, hr, h1, h2, hne, hall, hrace, hpx, hm]

theorem update_noChange (st : NMState) (env : TIEnv)
    (hp : env.present = true) (hr : env.tiReady = true)
    (h1 : env.probe1 = some st.treeInterceptorSize) :
    update st env = { st := st, result := .ret false } := by
  simp [update, hp, hr, h1]

/-! ## Concrete scenario data -/

/-- Normalized control attributes carrying only a role. -/
def attrsRole (role : String) : Attrs := [(str "role", str role)]

/-- Normalized control attributes carrying a role and a class. -/
def attrsRoleClass (role cls : String) : Attrs :=
  [(str "role", str role), (str "IAccessible2::attribute_class", str cls)]

/-- A small snapshot: a document containing a text run "Hello" followed by
a link whose text is "Go". -/
def docW : XDoc := .control (attrsRole "document")
  [.textElem [] [.chunk (str "Hello")],
   .control (attrsRole "link") [.textElem [] [.chunk (str "Go")]]]

/-- The tree the builder produces for `docW`. -/
def treeW : NodeField := (buildDoc 0 none docW).node

/-- The "Hello" text leaf of `treeW`. -/
def leafHello : NodeField :=
  .mk { format := some [], text := some (str "Hello"), offset := 0, size := 5,
        prevText := none } []

/-- The "Go" text leaf of `treeW`. -/
def leafGo : NodeField :=
  .mk { format := some [], text := some (str "Go"), offset := 5, size := 2,
        prevText := some (str "Hello") } []

/-- A candidate control node matching `eq_role link` with no class. -/
def nodeB : NodeField := .mk { control := some (attrsRoleClass "link" ""), offset := 4, size := 3 } []

/-- A control node carrying class "hidden" (placed elsewhere in the tree). -/
def nodeA : NodeField :=
  .mk { control := some (attrsRoleClass "other" "hidden"), offset := 1, size := 3 } []

/-- A root control containing `nodeA` and `nodeB` as siblings. -/
def nodeR : NodeField :=
  .mk { control := some (attrsRoleClass "doc" ""), offset := 0, size := 8 } [nodeA, nodeB]

/-- Criteria: `eq_role: ["link"]` together with `notIn_className: ["hidden"]`. -/
def critsC6 : Criteria := [(str "eq_role", [str "link"]), (str "notIn_className", [str "hidden"])]

/-- The "Go Home" text leaf under the first link. -/
def f1 : NodeField :=
  .mk { format := some [], text := some (str "Go Home"), offset := 0, size := 7 } []

/-- The first link control (subtree text "Go Home"). -/
def l1 : NodeField := .mk { control := some (attrsRole "link"), offset := 0, size := 7 } [f1]

/-- The "Go Away" text leaf under the second link. -/
def f2 : NodeField :=
  .mk { format := some [], text := some (str "Go Away"), offset := 7, size := 7 } []

/-- The second link control (subtree text "Go Away"). -/
def l2 : NodeField := .mk { control := some (attrsRole "link"), offset := 7, size := 7 } [f2]

/-- A root containing the two links. -/
def r7 : NodeField :=
  .mk { control := some (attrsRole "document"), offset := 0, size := 14 } [l1, l2]

/-- Criteria: `{eq_role: ["link"], in_text: ["Home"]}`. -/
def critsC7 : Criteria := [(str "eq_role", [str "link"]), (str "in_text", [str "Home"])]

/-- Deep-containment scenario: a grandchild text leaf sharing its offset
with its parent control, both strictly inside the root's interval. -/
def g10 : NodeField :=
  .mk { format := some [], text := some (str "hello"), offset := 3, size := 5 } []

def c10 : NodeField := .mk { control := some (attrsRole "p"), offset := 3, size := 5 } [g10]

def n10 : NodeField := .mk { control := some (attrsRole "document"), offset := 0, size := 10 } [c10]

/-- Update call 1: readable source, extent 100, stable across the build. -/
def env1C9 : TIEnv :=
  { probe1 := some 100, allStart := 0, allEnd := 100, snapshot := docW.serialize,
    probe2 := some 100, now := 1 }

/-- Update call 2: extent now 101, but the full range is empty, so the
build attempt fails after recording 101. -/
def env2C9 : TIEnv := { probe1 := some 101, allStart := 0, allEnd := 0, now := 2 }

/-- Update call 3: extent back to 100 — exactly the extent of the last
successful build (call 1). -/
def env3C9 : TIEnv :=
  { probe1 := some 100, allStart := 0, allEnd := 100, snapshot := docW.serialize,
    probe2 := some 100, now := 3 }

/-- A race environment: extent 100 before the snapshot, 101 at the
post-build probe. -/
def envRaceW : TIEnv :=
  { probe1 := some 100, allStart := 0, allEnd := 100, snapshot := docW.serialize,
    probe2 := some 101, now := 1 }

/-- A manager state that is Ready with the `docW` tree at extent 100. -/
def stReadyC8 : NMState :=
  { ready := true, treeInterceptorSize := 100, mainNode := some treeW, identifier := some 1 }

/-- An environment whose snapshot contains an element with the
unrecognized tag `foo`. -/
def envBadC8 : TIEnv :=
  { probe1 := some 101, allStart := 0, allEnd := 101,
    snapshot := [.startE (str "control") (attrsRole "document"), .startE (str "foo") []],
    probe2 := some 101, now := 2 }

/-! ## Claims -/

/-- Claim C1: when the post-build extent probe differs from the extent
probed just before the snapshot, `update` returns failure, leaves the
manager not ready (so no query exposes the newly built tree), signals the
scheduler to retry the update asynchronously, and bounds the call to a
single build attempt. -/
theorem claim_C1_concurrent_mutation_retry (st : NMState) (env : TIEnv)
    (hp : env.present = true) (hr : env.tiReady = true)
    {n1 : Nat} (h1 : env.probe1 = some n1) (hne : n1 ≠ st.treeInterceptorSize)
    (hall : env.allStart ≠ env.allEnd)
    (hparse : (parseXML env.snapshot).2 = none)
    (hmain : (mainNodeOf (parseXML env.snapshot).1).isSome = true)
    {n2 : Nat} (h2 : env.probe2 = some n2) (hrace : n2 ≠ n1) :
    (update st env).result = .ret false ∧
    (update st env).st.ready = false ∧
    (∀ env' : TIEnv, isReadyM (update st env).st env' = false) ∧
    (∀ (env' : TIEnv) (roots : Option (List NodeField)) (exclude : List NodeField)
      (kwargs : Criteria),
      managerSearchNode (update st env).st env' roots exclude kwargs = .ok []) ∧
    (update st env).sent = some .updateNodeManager ∧
    (update st env).builds = 1 := by
  obtain ⟨hres, hready, hsent, hbuilds⟩ :=
    update_race st env hp hr h1 hne hall hparse hmain h2 hrace
  have hnr : ∀ env' : TIEnv, isReadyM (update st env).st env' = false := by
    intro env'
    simp [isReadyM, hready]
  exact ⟨hres, hready, hnr,
    fun env' roots exclude kwargs => managerSearchNode_not_ready _ _ _ _ _ (hnr env'),
    hsent, hbuilds⟩

/-- Witness for C1 at a concrete race (extent 100 before, 101 after). -/
theorem claim_C1_witness :
    envRaceW.present = true ∧ envRaceW.probe1 = some 100 ∧ envRaceW.probe2 = some 101 ∧
    (update ({} : NMState) envRaceW).result = .ret false ∧
    (update ({} : NMState) envRaceW).st.ready = false ∧
    (update ({} : NMState) envRaceW).sent = some .updateNodeManager ∧
    (update ({} : NMState) envRaceW).builds = 1 := by
  have h := claim_C1_concurrent_mutation_retry ({} : NMState) envRaceW rfl rfl rfl
    (by decide) (by decide) rfl rfl rfl (by decide)
  exact ⟨rfl, rfl, rfl, h.1, h.2.1, h.2.2.2.2.1, h.2.2.2.2.2⟩

/-- Claim C2: in every tree a completed builder run produces, a
text-bearing leaf's size is the length of its text and every other node's
size is the sum of its immediate children's sizes, recursively to the
root. -/
theorem claim_C2_size_aggregation (doc : XDoc) (t : NodeField)
    (h : buildTree doc.serialize = some t) : sizeOKb t = true := by
  cases hok : doc.rolesOK with
  | true =>
    rw [buildTree_serialize doc hok] at h
    cases h
    exact buildDoc_sizeOK doc 0 none
  | false =>
    rw [buildTree_err doc hok] at h
    cases h

/-- Witness for C2 on the concrete snapshot `docW`. -/
theorem claim_C2_witness : buildTree docW.serialize = some treeW ∧ sizeOKb treeW = true :=
  ⟨rfl, claim_C2_size_aggregation docW treeW rfl⟩

/-- Claim C3: the text leaves of a built tree, in document (pre-order)
order, have strictly increasing offsets and pairwise non-overlapping
`[offset, offset + size)` intervals. -/
theorem claim_C3_offset_monotonicity (doc : XDoc) (hwf : doc.wfChunks = true)
    (t : NodeField) (h : buildTree doc.serialize = some t) :
    List.Pairwise leafR t.leaves := by
  cases hok : doc.rolesOK with
  | true =>
    rw [buildTree_serialize doc hok] at h
    cases h
    exact (buildDoc_leafInv doc hwf 0 none).2
  | false =>
    rw [buildTree_err doc hok] at h
    cases h

/-- Witness for C3 on the concrete snapshot `docW`. -/
theorem claim_C3_witness :
    docW.wfChunks = true ∧ buildTree docW.serialize = some treeW ∧
    List.Pairwise leafR treeW.leaves :=
  ⟨rfl, rfl, claim_C3_offset_monotonicity docW rfl treeW rfl⟩

/-- Claim C4: on a built tree, `searchOffset` returns the text leaf whose
interval contains the probed offset (the first match of the pre-order
walk — unambiguous since leaves do not overlap), and `none` when no leaf
interval contains it. -/
theorem claim_C4_offset_search (doc : XDoc) (hwf : doc.wfChunks = true)
    (t : NodeField) (h : buildTree doc.serialize = some t) (o : Nat) :
    (∀ l ∈ t.leaves, inIval o l = true → t.searchOffset o = some l) ∧
    ((∀ l ∈ t.leaves, inIval o l = false) → t.searchOffset o = none) := by
  have hpw : List.Pairwise leafR t.leaves := by
    cases hok : doc.rolesOK with
    | true =>
      rw [buildTree_serialize doc hok] at h
      cases h
      exact (buildDoc_leafInv doc hwf 0 none).2
    | false =>
      rw [buildTree_err doc hok] at h
      cases h
  constructor
  · intro l hl ho
    rw [searchOffset_eq]
    exact find?_inIval_pairwise hpw hl ho
  · intro hnone
    rw [searchOffset_eq]
    rw [List.find?_eq_none]
    intro l hl
    simp [hnone l hl]

/-- Witness for C4: offset 6 lies in the "Go" leaf of `treeW` and is found
there; offset 7 lies in no leaf and yields `none`. -/
theorem claim_C4_witness :
    docW.wfChunks = true ∧ buildTree docW.serialize = some treeW ∧
    treeW.searchOffset 6 = some leafGo ∧ treeW.searchOffset 7 = none := by
  refine ⟨rfl, rfl, ?_, ?_⟩
  · exact (claim_C4_offset_search docW rfl treeW rfl 6).1 leafGo
      (List.mem_cons_of_mem _ (List.mem_cons_self _ _)) rfl
  · refine (claim_C4_offset_search docW rfl treeW rfl 7).2 ?_
    intro l hl
    simp only [show treeW.leaves = [leafHello, leafGo] from rfl, List.mem_cons,
      List.mem_singleton] at hl
    rcases hl with rfl | rfl | h
    · rfl
    · rfl
    · cases h

/-- Claim C5: node equality is pure offset equality — `a == b` holds
exactly when the offsets agree, comparing against `None` is false, and the
list-membership test the query engine uses for exclusion sets is exactly
membership modulo this offset equality. -/
theorem claim_C5_eq_by_offset (a b : NodeField) :
    (a.pyEq (some b) = true ↔ a.data.offset = b.data.offset) ∧
    a.pyEq none = false ∧
    (∀ ex : List NodeField, memByEq a ex = true ↔ ∃ x ∈ ex, x.data.offset = a.data.offset) := by
  refine ⟨?_, rfl, ?_⟩
  · simp [NodeField.pyEq]
  · intro ex
    simp [memByEq, NodeField.pyEq, List.any_eq_true]

/-- Counterexample to claim C6: with criteria `eq_role ["link"]` and
`notIn_className ["hidden"]` over a root whose children are a "hidden"
node and a matching link, the overall result is `[nodeB]`, not empty — the
`notIn` match at `nodeA` empties only `nodeA`'s subtree, and the search
continues elsewhere. -/
theorem claim_C6_counterexample :
    nodeA.className = some (str "hidden") ∧
    nodeA ∈ nodeR.children ∧
    NodeField.searchNode nodeR [] 0 0 critsC6 = .ok [nodeB] ∧
    managerSearchNode { ready := true, mainNode := some nodeR } {} none [] critsC6 =
      .ok [nodeB] ∧
    [nodeB] ≠ ([] : List NodeField) := by
  refine ⟨rfl, List.mem_cons_self _ _, rfl, rfl, by simp⟩

/-- Claim C6 (amended): a control node one of whose class tokens matches a
`notIn_className` criterion contributes an empty result for its entire
subtree call — the node and all its descendants are excluded — though, as
the counterexample shows, nodes outside that subtree may still be
returned. -/
theorem claim_C6_notIn_prunes_subtree (n : NodeField)
    (hctl : n.data.control.isSome = true) (vals : List Str) (entries : Criteria)
    (exclude : List NodeField) (maxIndex currentIndex : Nat)
    (hmatch : (pySplit ' ' (n.className.getD [])).any
      (fun tok => search_in vals (some tok)) = true) :
    n.searchNode exclude maxIndex currentIndex ((str "notIn_className", vals) :: entries) =
      .ok [] :=
  searchNode_notIn_empties_subtree n hctl vals entries exclude maxIndex currentIndex hmatch

/-- Witness for the amended C6: the "hidden" node's whole subtree call
yields nothing. -/
theorem claim_C6_witness :
    nodeA.data.control.isSome = true ∧
    (pySplit ' ' (nodeA.className.getD [])).any
      (fun tok => search_in [str "hidden"] (some tok)) = true ∧
    nodeA.searchNode [] 0 0 [(str "notIn_className", [str "hidden"])] = .ok [] :=
  ⟨rfl, rfl, claim_C6_notIn_prunes_subtree nodeA rfl [str "hidden"] [] [] 0 0 rfl⟩

/-- Counterexample to claim C7: on the two-link tree, the search with
`{eq_role: ["link"], in_text: ["Home"]}` returns the Text leaf `f1`
holding "Go Home" — a node that is not a Control (it has no `control`
attribute) — rather than the link Control object itself. -/
theorem claim_C7_counterexample :
    NodeField.searchNode r7 [] 0 0 critsC7 = .ok [f1] ∧
    f1.data.control = none ∧
    f1.data.text.isSome = true ∧
    l1.data.control.isSome = true ∧
    l1.data.text = none ∧
    f1 ∈ l1.children :=
  ⟨rfl, rfl, rfl, rfl, rfl, List.mem_cons_self _ _⟩

/-- Claim C7 (amended): on that tree the search returns exactly one node —
the Text leaf "Go Home" inside the first link's subtree, which compares
equal to the first link Control under the engine's offset-based equality —
and the second link's subtree contributes nothing. -/
theorem claim_C7_conjunctive_search :
    NodeField.searchNode r7 [] 0 0 critsC7 = .ok [f1] ∧
    f1.data.offset = l1.data.offset ∧
    f1.pyEq (some l1) = true ∧
    f1 ∈ l1.children ∧
    NodeField.searchString l2 [str "Home"] [] 0 0 = [] :=
  ⟨rfl, rfl, rfl, List.mem_cons_self _ _, rfl⟩

/-- Claim C8: an element with an unrecognized tag makes the parse raise
`ValueError`, aborting tree construction; but contrary to the claim's
recovery part, the exception escapes `update` — which therefore neither
returns failure nor resets readiness: the manager is left with its old
`_ready = True`, `isReady` still true, `updating` stuck true, and the
partially built tree in `mainNode`.  (Evaluation of the model at the
failing input, documenting the code bug.) -/
theorem claim_C8_unknown_tag_escapes :
    (update stReadyC8 envBadC8).result = .exn .unknownStartTag ∧
    (update stReadyC8 envBadC8).st.ready = true ∧
    isReadyM (update stReadyC8 envBadC8).st envBadC8 = true ∧
    (update stReadyC8 envBadC8).st.mainNode =
      some (.mk (controlData (attrsRole "document") 0 none) []) ∧
    (update stReadyC8 envBadC8).st.updating = true :=
  ⟨rfl, rfl, rfl, rfl, rfl⟩

/-- Counterexample to claim C9: after a successful build at extent 100
(call 1) and a failed attempt that recorded extent 101 (call 2), a third
call probing extent 100 — exactly the extent of the last successful
build — does not return "no change": it takes a snapshot and rebuilds. -/
theorem claim_C9_counterexample :
    (update ({} : NMState) env1C9).result = .ret true ∧
    env1C9.probe1 = some 100 ∧
    (update (update ({} : NMState) env1C9).st env2C9).result = .ret false ∧
    env3C9.probe1 = some 100 ∧
    (update (update (update ({} : NMState) env1C9).st env2C9).st env3C9).snapshots = 1 ∧
    (update (update (update ({} : NMState) env1C9).st env2C9).st env3C9).builds = 1 ∧
    (update (update (update ({} : NMState) env1C9).st env2C9).st env3C9).result = .ret true :=
  ⟨rfl, rfl, rfl, rfl, rfl, rfl, rfl⟩

/-- Claim C9 (amended): when the source is readable and the probed extent
equals the stored `treeInterceptorSize` — the extent recorded by the most
recent update call that got past the no-change check, whether or not that
build succeeded — `update` returns "no change" without rebuilding: no
snapshot, no parse, no event, and the state (tree, readiness, build
identifier) completely unchanged. -/
theorem claim_C9_no_change_stored_extent (st : NMState) (env : TIEnv)
    (hp : env.present = true) (hr : env.tiReady = true)
    (h1 : env.probe1 = some st.treeInterceptorSize) :
    (update st env).st = st ∧ (update st env).result = .ret false ∧
    (update st env).sent = none ∧ (update st env).snapshots = 0 ∧
    (update st env).builds = 0 := by
  rw [update_noChange st env hp hr h1]
  exact ⟨rfl, rfl, rfl, rfl, rfl⟩

/-- Witness for the amended C9 at a concrete no-change call. -/
theorem claim_C9_witness :
    (⟨true, 100, some treeW, some 1, false, none⟩ : NMState).treeInterceptorSize = 100 ∧
    (update (⟨true, 100, some treeW, some 1, false, none⟩ : NMState) env1C9).st =
      (⟨true, 100, some treeW, some 1, false, none⟩ : NMState) ∧
    (update (⟨true, 100, some treeW, some 1, false, none⟩ : NMState) env1C9).result =
      .ret false ∧
    (update (⟨true, 100, some treeW, some 1, false, none⟩ : NMState) env1C9).snapshots = 0 := by
  have h := claim_C9_no_change_stored_extent
    (⟨true, 100, some treeW, some 1, false, none⟩ : NMState) env1C9 rfl rfl rfl
  exact ⟨rfl, h.1, h.2.1, h.2.2.2.1⟩

/-- Counterexample to claim C10's consequence: `g10` is a text leaf two
levels below `n10`, its span lies inside `n10`'s interval, its offset
differs from `n10`'s — yet `n10.__contains__ g10` reports `True`, because
`g10` shares its offset with the immediate child `c10`. -/
theorem claim_C10_counterexample :
    n10.pyContains g10 = true ∧
    n10.children = [c10] ∧
    c10.children = [g10] ∧
    g10.data.text.isSome = true ∧
    n10.data.offset ≤ g10.data.offset ∧
    g10.data.offset + g10.data.size ≤ n10.data.offset + n10.data.size ∧
    g10.data.offset ≠ n10.data.offset :=
  ⟨rfl, rfl, rfl, rfl, by decide, by decide, by decide⟩

/-- Claim C10 (amended): `m in n` holds exactly when `m`'s offset equals
`n`'s own offset or the offset of one of `n`'s immediate children; deeper
descendants are never inspected, so a leaf two or more levels below `n`
whose offset differs from `n`'s and from every immediate child's is
reported as not contained even when its span lies inside `n`'s
interval. -/
theorem claim_C10_contains_characterization (n m : NodeField) :
    n.pyContains m = true ↔
      (n.data.offset = m.data.offset ∨ ∃ c ∈ n.children, c.data.offset = m.data.offset) := by
  simp [NodeField.pyContains, NodeField.pyEq, List.any_eq_true]
